import Mathlib

/-!
Verification of the pretty-modbus layout/codec engine and its facades.

The repository's `registers.py` and `coils.py` modules (payload builder,
payload decoder, register and coil layouts) are referenced by the tests but
their sources are not present; the corresponding definitions below are
modelled from the specification (sections 3, 4.1-4.5) and cross-checked
against the byte-exact expectations of `tests/test_registers.py` and
`tests/test_coils.py`.  All other definitions are translated directly from
`src/pretty_modbus/daemon.py`, `threaded.py`, `context.py` and
`async_io.py`.
-/

namespace PrettyModbus

/-- Byteorder of the two bytes inside one 16-bit register chunk. -/
inductive ByteOrder where
  | big
  | little
deriving DecidableEq, Repr

/-- Wordorder of the successive 16-bit register chunks of one value. -/
inductive WordOrder where
  | big
  | little
deriving DecidableEq, Repr

/-- The supported primitive type tags (spec section 3); 8-bit tags are not
part of the type, mirroring that the encoder rejects them. -/
inductive DataTag where
  | u16
  | i16
  | u32
  | i32
  | u64
  | i64
  | f16
  | f32
  | f64
deriving DecidableEq, Repr

/-- Width of a tag in bytes: 2 for 16-bit, 4 for 32-bit, 8 for 64-bit. -/
def DataTag.byteCount : DataTag → Nat
  | .u16 | .i16 | .f16 => 2
  | .u32 | .i32 | .f32 => 4
  | .u64 | .i64 | .f64 => 8

/-- Width of a tag in bits. -/
def DataTag.bitCount (t : DataTag) : Nat := 8 * t.byteCount

/-- Signed integer tags use two's complement. -/
def DataTag.signed : DataTag → Bool
  | .i16 | .i32 | .i64 => true
  | _ => false

/-- Float tags; their values are modelled by their IEEE bit patterns, on
which the builder and decoder act purely byte-wise. -/
def DataTag.isFloat : DataTag → Bool
  | .f16 | .f32 | .f64 => true
  | _ => false

/-- Smallest value of the tag's range (for floats: smallest bit pattern). -/
def DataTag.lowerBound (t : DataTag) : Int :=
  if t.signed then -(2 ^ (t.bitCount - 1)) else 0

/-- Largest value of the tag's range (for floats: largest bit pattern). -/
def DataTag.upperBound (t : DataTag) : Int :=
  if t.signed then 2 ^ (t.bitCount - 1) - 1 else 2 ^ t.bitCount - 1

/-- A value is representable in a tag when it lies in the tag's range;
for float tags the value is the IEEE bit pattern of the represented float,
so every representable float of the tag corresponds to exactly one value. -/
def DataTag.representable (t : DataTag) (v : Int) : Prop :=
  t.lowerBound ≤ v ∧ v ≤ t.upperBound

instance (t : DataTag) (v : Int) : Decidable (t.representable v) := by
  unfold DataTag.representable; infer_instance

/-- Two's-complement image of a value in `[0, 2 ^ bitCount)`. -/
def DataTag.toUnsigned (t : DataTag) (v : Int) : Nat :=
  (v % (2 ^ t.bitCount : Nat)).toNat

/-- Interpret an unsigned register image back as a tag value
(two's complement for signed tags). -/
def DataTag.fromUnsigned (t : DataTag) (u : Nat) : Int :=
  if t.signed ∧ 2 ^ (t.bitCount - 1) ≤ u then (u : Int) - 2 ^ t.bitCount else u

/-- Big-endian byte string of `x`, `n` bytes long (most significant first). -/
def toBytesBE : Nat → Nat → List Nat
  | 0, _ => []
  | n + 1, x => toBytesBE n (x / 256) ++ [x % 256]

/-- Value of a big-endian byte string. -/
def fromBytesBE (bs : List Nat) : Nat :=
  bs.foldl (fun a b => 256 * a + b) 0

/-- Split a byte string into consecutive 16-bit words (pairs of bytes,
most significant byte first inside each pair). -/
def toWords : List Nat → List (Nat × Nat)
  | a :: b :: rest => (a, b) :: toWords rest
  | _ => []

/-- Flatten a word list back into a byte string. -/
def flattenWords : List (Nat × Nat) → List Nat
  | [] => []
  | p :: rest => p.1 :: p.2 :: flattenWords rest

/-- Byteorder permutation inside one word: big keeps the high byte first,
little swaps the two bytes. -/
def byteMap (bo : ByteOrder) (p : Nat × Nat) : Nat × Nat :=
  match bo with
  | .big => p
  | .little => (p.2, p.1)

/-- Wordorder permutation of the word sequence: big keeps the most
significant word first, little reverses the sequence. -/
def orderWords (wo : WordOrder) (ws : List (Nat × Nat)) : List (Nat × Nat) :=
  match wo with
  | .big => ws
  | .little => ws.reverse

/-- Modelled from the spec (section 4.1, `PayloadBuilder`; the repository's
`registers.py` is not in the sources): the ordered 2-byte register chunks of
a byte string, with the wordorder applied to the chunk sequence and the
byteorder applied inside each chunk. -/
def buildChunks (bo : ByteOrder) (wo : WordOrder) (bs : List Nat) :
    List (List Nat) :=
  (orderWords wo (toWords bs)).map (fun p => [(byteMap bo p).1, (byteMap bo p).2])

/-- Modelled from the spec (section 4.2, `PayloadDecoder`): recover the
big-endian byte string from a flat buffer by inverting the byteorder and
wordorder permutations. -/
def unshuffleBytes (bo : ByteOrder) (wo : WordOrder) (buffer : List Nat) :
    List Nat :=
  flattenWords (orderWords wo ((toWords buffer).map (byteMap bo)))

/-- Modelled from the spec (section 4.1, `add_number` followed by `build`;
the repository's `registers.py` is not in the sources): encode one number.
Integer tags range-check against the tag's bounds, float tags do not. -/
def addNumber (bo : ByteOrder) (wo : WordOrder) (t : DataTag) (v : Int) :
    Except Unit (List (List Nat)) :=
  if t.isFloat then
    .ok (buildChunks bo wo (toBytesBE t.byteCount (t.toUnsigned v)))
  else if v < t.lowerBound ∨ t.upperBound < v then
    .error ()
  else
    .ok (buildChunks bo wo (toBytesBE t.byteCount (t.toUnsigned v)))

/-- Modelled from the spec (section 4.2): decode one number from a flat
byte buffer. -/
def decodeNumber (bo : ByteOrder) (wo : WordOrder) (t : DataTag)
    (buffer : List Nat) : Int :=
  t.fromUnsigned (fromBytesBE (unshuffleBytes bo wo buffer))

theorem toBytesBE_length (n x : Nat) : (toBytesBE n x).length = n := by
  induction n generalizing x with
  | zero => rfl
  | succ n ih => simp [toBytesBE, ih]

theorem fromBytesBE_append (l : List Nat) (b : Nat) :
    fromBytesBE (l ++ [b]) = 256 * fromBytesBE l + b := by
  simp [fromBytesBE, List.foldl_append]

theorem fromBytesBE_toBytesBE (n x : Nat) :
    fromBytesBE (toBytesBE n x) = x % 256 ^ n := by
  induction n generalizing x with
  | zero => simp [toBytesBE, fromBytesBE]; omega
  | succ n ih =>
    rw [toBytesBE, fromBytesBE_append, ih]
    rw [pow_succ, Nat.mul_comm (256 ^ n) 256, Nat.mod_mul]
    omega

theorem toWords_flattenWords (ws : List (Nat × Nat)) :
    toWords (flattenWords ws) = ws := by
  induction ws with
  | nil => rfl
  | cons p rest ih => simp [flattenWords, toWords, ih]

theorem flattenWords_toWords :
    ∀ bs : List Nat, bs.length % 2 = 0 → flattenWords (toWords bs) = bs
  | [], _ => rfl
  | [a], h => by simp at h
  | a :: b :: rest, h => by
    have h' : rest.length % 2 = 0 := by simp at h; omega
    simp [toWords, flattenWords, flattenWords_toWords rest h']

theorem byteMap_byteMap (bo : ByteOrder) (p : Nat × Nat) :
    byteMap bo (byteMap bo p) = p := by
  cases bo <;> rfl

theorem orderWords_orderWords (wo : WordOrder) (ws : List (Nat × Nat)) :
    orderWords wo (orderWords wo ws) = ws := by
  cases wo <;> simp [orderWords]

theorem toWords_join_chunks (qs : List (Nat × Nat)) :
    toWords (List.flatten (qs.map (fun q => [q.1, q.2]))) = qs := by
  induction qs with
  | nil => rfl
  | cons q rest ih => simp [toWords, ih]

theorem unshuffle_buildChunks (bo : ByteOrder) (wo : WordOrder)
    (bs : List Nat) (h : bs.length % 2 = 0) :
    unshuffleBytes bo wo (List.flatten (buildChunks bo wo bs)) = bs := by
  unfold unshuffleBytes buildChunks
  rw [show (orderWords wo (toWords bs)).map
        (fun p => [(byteMap bo p).1, (byteMap bo p).2])
      = ((orderWords wo (toWords bs)).map (byteMap bo)).map
        (fun q => [q.1, q.2]) by simp]
  rw [toWords_join_chunks, List.map_map]
  rw [show (byteMap bo ∘ byteMap bo) = id from funext (byteMap_byteMap bo)]
  rw [List.map_id, orderWords_orderWords, flattenWords_toWords bs h]

theorem DataTag.byteCount_even (t : DataTag) : t.byteCount % 2 = 0 := by
  cases t <;> rfl

theorem DataTag.toUnsigned_lt (t : DataTag) (v : Int) :
    t.toUnsigned v < 2 ^ t.bitCount := by
  have hpos : (0 : Int) < ((2 ^ t.bitCount : Nat) : Int) := by positivity
  have := Int.emod_lt_of_pos v hpos
  unfold DataTag.toUnsigned
  omega

theorem DataTag.fromUnsigned_toUnsigned (t : DataTag) (v : Int)
    (h : t.representable v) : t.fromUnsigned (t.toUnsigned v) = v := by
  rcases h with ⟨h1, h2⟩
  cases t <;>
    simp only [DataTag.fromUnsigned, DataTag.toUnsigned, DataTag.signed,
      DataTag.lowerBound, DataTag.upperBound, DataTag.bitCount,
      DataTag.byteCount] at * <;>
    norm_num at * <;> (try split) <;> omega

theorem pow256_byteCount (t : DataTag) :
    (256 : Nat) ^ t.byteCount = 2 ^ t.bitCount := by
  rw [show (256 : Nat) = 2 ^ 8 from rfl, ← pow_mul, DataTag.bitCount]

theorem decodeNumber_buildChunks (bo : ByteOrder) (wo : WordOrder)
    (t : DataTag) (v : Int) (h : t.representable v) :
    decodeNumber bo wo t
      (List.flatten (buildChunks bo wo (toBytesBE t.byteCount (t.toUnsigned v))))
      = v := by
  unfold decodeNumber
  rw [unshuffle_buildChunks bo wo _ (by rw [toBytesBE_length]; exact t.byteCount_even)]
  rw [fromBytesBE_toBytesBE, pow256_byteCount,
    Nat.mod_eq_of_lt (t.toUnsigned_lt v)]
  exact t.fromUnsigned_toUnsigned v h

/-- C1: for every supported primitive tag, every byteorder, every wordorder
and every value representable in that tag, decoding the concatenation of the
chunks produced by encoding the value returns the original value.  Float
values are modelled by their IEEE bit patterns, on which the builder and
decoder act purely byte-wise, so the round trip is exact on representable
float values (hence within the tag's machine epsilon). -/
theorem C1_roundtrip_decode_encode (t : DataTag) (bo : ByteOrder)
    (wo : WordOrder) (v : Int) (h : t.representable v) :
    ∃ chunks, addNumber bo wo t v = .ok chunks ∧
      decodeNumber bo wo t chunks.flatten = v := by
  refine ⟨buildChunks bo wo (toBytesBE t.byteCount (t.toUnsigned v)), ?_, ?_⟩
  · unfold addNumber
    split
    · rfl
    · split
      · rcases h with ⟨h1, h2⟩
        rename_i hcond
        rcases hcond with hlt | hgt
        · exact absurd h1 (by omega)
        · exact absurd h2 (by omega)
      · rfl
  · exact decodeNumber_buildChunks bo wo t v h

/-- Witness for C1 at tag i32, byteorder little, wordorder big,
value 67108864 (the spec's own S1 example). -/
theorem C1_roundtrip_witness :
    DataTag.representable .i32 67108864 ∧
      ∃ chunks, addNumber .little .big .i32 67108864 = .ok chunks ∧
        decodeNumber .little .big .i32 chunks.flatten = 67108864 :=
  ⟨by decide, C1_roundtrip_decode_encode .i32 .little .big 67108864 (by decide)⟩

/-- Reordering of whole 16-bit chunks by the wordorder. -/
def chunkWordPerm (wo : WordOrder) (cs : List (List Nat)) : List (List Nat) :=
  match wo with
  | .big => cs
  | .little => cs.reverse

/-- Permutation of the bytes inside one 16-bit chunk by the byteorder. -/
def chunkBytePerm (bo : ByteOrder) (c : List Nat) : List Nat :=
  match bo with
  | .big => c
  | .little => c.reverse

/-- C3: encoding the i32 value 67108864 with (byteorder little, wordorder
big) yields chunks [00 04, 00 00]; with (little, little) [00 00, 00 04];
with (big, big) [04 00, 00 00].  Moreover byteorder permutes only the two
bytes inside each chunk and wordorder permutes only the chunk order:
encoding under any orders equals the big/big encoding with the wordorder
permutation applied to the chunk list and the byteorder permutation applied
inside each chunk, independently. -/
theorem C3_order_orthogonality :
    addNumber .little .big .i32 67108864 = .ok [[0x00, 0x04], [0x00, 0x00]] ∧
    addNumber .little .little .i32 67108864 =
      .ok [[0x00, 0x00], [0x00, 0x04]] ∧
    addNumber .big .big .i32 67108864 = .ok [[0x04, 0x00], [0x00, 0x00]] ∧
    ∀ (bo : ByteOrder) (wo : WordOrder) (bs : List Nat),
      buildChunks bo wo bs =
        (chunkWordPerm wo (buildChunks .big .big bs)).map (chunkBytePerm bo) := by
  refine ⟨by rfl, by rfl, by rfl, ?_⟩
  intro bo wo bs
  cases bo <;> cases wo <;>
    simp [buildChunks, orderWords, byteMap, chunkWordPerm, chunkBytePerm,
      List.map_map, Function.comp]

/-- The sleep computed by `AsyncDaemon._serve_coro` (daemon.py lines 47-53):
`diff = start - time.perf_counter()` and `wait = max(period - diff, 0.0)`,
where `start` is the clock before the job and `stop` the clock after it. -/
def asyncDaemonWait (period start stop : ℚ) : ℚ :=
  max (period - (start - stop)) 0

/-- The sleep computed by `DaemonThread._serve` (daemon.py lines 106-113):
`diff = time.perf_counter() - start_time` and `wait = max(0, period - diff)`. -/
def daemonThreadWait (period start stop : ℚ) : ℚ :=
  max 0 (period - (stop - start))

/-- The sleep computed by the threaded `Daemon._serve`
(threaded.py lines 60-66), identical in shape to `DaemonThread._serve`. -/
def threadedDaemonWait (period start stop : ℚ) : ℚ :=
  max 0 (period - (stop - start))

/-- Modelled from the spec (section 4.8): the sleep the claim prescribes,
`max(0, period - elapsed)`. -/
def specSleepSeconds (period elapsed : ℚ) : ℚ :=
  max 0 (period - elapsed)

/-- C4 (failing input): with period 1 and a job iteration running from
clock 0 to clock 1 (elapsed 1), `AsyncDaemon._serve_coro` computes
`diff = start - perf_counter() = -1` and sleeps `max(period - diff, 0) = 2`,
while the claim prescribes `max(0, period - elapsed) = 0`; the two thread
variants do sleep the prescribed 0. -/
theorem C4_async_sleep_bug :
    asyncDaemonWait 1 0 1 = 2 ∧
    specSleepSeconds 1 1 = 0 ∧
    daemonThreadWait 1 0 1 = 0 ∧
    threadedDaemonWait 1 0 1 = 0 := by
  refine ⟨?_, ?_, ?_, ?_⟩ <;>
    norm_num [asyncDaemonWait, specSleepSeconds, daemonThreadWait,
      threadedDaemonWait]

/-- A transport response as seen by the facades: the function code plus the
payload fields used by reads (`registers` for register reads, `bits` for
coil and discrete-input reads). -/
structure Response where
  function_code : Nat
  registers : List Nat
  bits : List Bool
deriving DecidableEq, Repr

/-- The error taxonomy of `exceptions.py`, restricted to the variants the
claims exercise. -/
inductive ModbusError where
  | unknownType (type : String)
  | outOfBounds (type : String) (value : Int)
  | variableNotFound (vars : List String)
  | modbusResponse (response : Response)
  | notConnected
  | encoding
deriving DecidableEq, Repr

/-- First exception raised across successive job iterations; `outcomes`
lists the per-iteration results (`none` = normal return, `some e` = the
iteration raised `e`). -/
def firstJobError {E : Type} (outcomes : List (Option E)) : Option E :=
  outcomes.findSome? id

/-- `DaemonThread._serve` (daemon.py lines 106-115): the whole loop runs
inside `try ... except Exception as e: self._queue.put(e)`, so the serve
function always returns normally and the queue afterwards holds the first
exception the job raised, if any. -/
def daemonThreadQueue {E : Type} (outcomes : List (Option E)) : List E :=
  (firstJobError outcomes).toList

/-- `DaemonThread.stop` (daemon.py lines 98-104): re-raises the queue head
when the queue is non-empty, otherwise sets the event and joins. -/
def daemonThreadStop {E : Type} (q : List E) : Except E Unit :=
  match q with
  | e :: _ => .error e
  | [] => .ok ()

/-- `AsyncDaemon._serve_coro` (daemon.py lines 47-53) wrapped in the task
created by `serve`: a job exception ends the coroutine and is stored in the
task, which `stop` returns; awaiting that task re-raises it. -/
def asyncDaemonTaskResult {E : Type} (outcomes : List (Option E)) :
    Except E Unit :=
  match firstJobError outcomes with
  | some e => .error e
  | none => .ok ()

/-- The threaded `Daemon._serve` (threaded.py lines 60-66): the loop has no
exception handler, so the first job exception propagates out of `_serve`
(`.error` below), silently terminating the daemon thread; the class stores
it nowhere and defines no stop method that could re-raise it. -/
def threadedDaemonServeResult {E : Type} (outcomes : List (Option E)) :
    Except E Unit :=
  match firstJobError outcomes with
  | some e => .error e
  | none => .ok ()

/-- C5 (counterexample): in the threaded `Daemon` variant a job exception is
not captured: it propagates out of `_serve` (the result is `.error 5`, not a
normal return), the class keeps no record of it and has no `stop()` to
re-raise it, so stopping cannot surface it — refuting the claim for this
variant. -/
theorem C5_counterexample :
    threadedDaemonServeResult [some (5 : Nat)] = .error 5 := rfl

/-- C5 (amended): for AsyncDaemon, awaiting the task returned by `stop()`
re-raises the first exception the job raised; for DaemonThread, `stop()`
re-raises the exception the serve loop captured on its queue; the threaded
`Daemon` variant does not capture job exceptions — they propagate out of
`_serve` and the class has no `stop()`. -/
theorem C5_job_exception_surfaced {E : Type} (outcomes : List (Option E))
    (e : E) (h : firstJobError outcomes = some e) :
    asyncDaemonTaskResult outcomes = .error e ∧
    daemonThreadStop (daemonThreadQueue outcomes) = .error e ∧
    threadedDaemonServeResult outcomes = .error e := by
  refine ⟨?_, ?_, ?_⟩ <;>
    simp [asyncDaemonTaskResult, daemonThreadStop, daemonThreadQueue,
      threadedDaemonServeResult, h, Option.toList]

/-- Witness for C5 at a job whose second iteration raises 7. -/
theorem C5_job_exception_surfaced_witness :
    firstJobError [none, some (7 : Nat)] = some 7 ∧
    asyncDaemonTaskResult [none, some (7 : Nat)] = .error 7 ∧
    daemonThreadStop (daemonThreadQueue [none, some (7 : Nat)]) = .error 7 ∧
    threadedDaemonServeResult [none, some (7 : Nat)] = .error 7 := by
  have h : firstJobError [none, some (7 : Nat)] = some 7 := rfl
  have := C5_job_exception_surfaced [none, some (7 : Nat)] 7 h
  exact ⟨h, this.1, this.2.1, this.2.2⟩

/-- The `_active` flag of the threaded `Client` (threaded.py lines 159-198),
the only state `_execute` consults. -/
structure ThreadedClientState where
  active : Bool
deriving DecidableEq, Repr

/-- `Client.__init__` (threaded.py lines 160-175): `_active = False`. -/
def clientInit : ThreadedClientState := ⟨false⟩

/-- `Client.start` (threaded.py lines 177-180): after receiving CONNECTED
from the worker, sets `_active = True`. -/
def clientStart (s : ThreadedClientState) : ThreadedClientState :=
  { s with active := true }

/-- `Client.stop` (threaded.py lines 182-188): sends DISCONNECT, awaits the
echo and joins the worker thread; it never assigns `_active`. -/
def clientStop (s : ThreadedClientState) : ThreadedClientState := s

/-- The gate at the top of `Client._execute` (threaded.py lines 190-192):
`if not self._active: raise NotConnectedError()`. -/
def clientExecuteGate (s : ThreadedClientState) : Except ModbusError Unit :=
  if s.active then .ok () else .error .notConnected

/-- C6 (counterexample): a started-then-stopped client still has
`_active = True`, so an RPC attempted after `stop()` passes the `_execute`
gate instead of raising NotConnectedError — refuting the claim's
"every RPC attempted after stop() raises NotConnectedError". -/
theorem C6_counterexample :
    clientExecuteGate (clientStop (clientStart clientInit)) = .ok () := rfl

/-- C6 (amended): `_execute` raises NotConnectedError exactly when `_active`
is false; `_active` is false at construction and true after `start()`, and
`stop()` leaves the state unchanged, so RPCs issued after `stop()` do not
raise NotConnectedError. -/
theorem C6_execute_gate :
    clientExecuteGate clientInit = .error .notConnected ∧
    (∀ s, clientExecuteGate (clientStart s) = .ok ()) ∧
    (∀ s, clientStop s = s) ∧
    (∀ s, clientExecuteGate s = .error .notConnected ↔ s.active = false) := by
  refine ⟨rfl, fun s => rfl, fun s => rfl, fun s => ?_⟩
  unfold clientExecuteGate
  cases h : s.active <;> simp [h]

/-- A command on the threaded client's command queue: DISCONNECT or an RPC
record, here identified by a request number. -/
inductive WorkerCommand where
  | disconnect
  | rpc (id : Nat)
deriving DecidableEq, Repr

/-- An envelope on the threaded client's response queue. -/
inductive WorkerResponse (E R : Type) where
  | connected
  | disconnected
  | result (r : R)
  | unhandled (e : E)
deriving DecidableEq, Repr

/-- The command loop of `_client_main` (threaded.py lines 148-154), with
`run i` the outcome of executing the i-th RPC on the transport: on
DISCONNECT echo and exit; on an RPC result, respond and continue; on an
exception, the enclosing handler puts one UnhandledException envelope and
the worker function returns, consuming no further command. -/
def processCommands {E R : Type} (run : Nat → Except E R) :
    List WorkerCommand → List (WorkerResponse E R)
  | [] => []
  | .disconnect :: _ => [.disconnected]
  | .rpc i :: rest =>
    match run i with
    | .ok r => .result r :: processCommands run rest
    | .error e => [.unhandled e]

/-- `_client_main` (threaded.py lines 137-156): the try block encloses
connecting, announcing CONNECTED and the whole command loop; any exception
anywhere in it produces a single UnhandledException envelope, after which
the worker function returns. -/
def clientMain {E R : Type} (connect : Except E Unit)
    (run : Nat → Except E R) (cs : List WorkerCommand) :
    List (WorkerResponse E R) :=
  match connect with
  | .error e => [.unhandled e]
  | .ok _ => .connected :: processCommands run cs

/-- Number of UnhandledException envelopes in a response sequence. -/
def countUnhandled {E R : Type} (rs : List (WorkerResponse E R)) : Nat :=
  rs.countP (fun r => match r with | .unhandled _ => true | _ => false)

/-- Whether executing the commands makes some RPC raise before a
DISCONNECT is reached (the worker dies with an UnhandledException). -/
def workerDies {E R : Type} (run : Nat → Except E R) :
    List WorkerCommand → Bool
  | [] => false
  | .disconnect :: _ => false
  | .rpc i :: rest =>
    match run i with
    | .ok _ => workerDies run rest
    | .error _ => true

theorem countUnhandled_processCommands {E R : Type} (run : Nat → Except E R)
    (cs : List WorkerCommand) : countUnhandled (processCommands run cs) ≤ 1 := by
  induction cs with
  | nil => simp [processCommands, countUnhandled]
  | cons c rest ih =>
    cases c with
    | disconnect => simp [processCommands, countUnhandled]
    | rpc i =>
      cases h : run i with
      | ok r =>
        simpa [processCommands, countUnhandled, h, List.countP_cons] using ih
      | error e => simp [processCommands, countUnhandled, h]

theorem processCommands_append_of_dies {E R : Type} (run : Nat → Except E R)
    (cs extra : List WorkerCommand) (h : workerDies run cs = true) :
    processCommands run (cs ++ extra) = processCommands run cs := by
  induction cs with
  | nil => simp [workerDies] at h
  | cons c rest ih =>
    cases c with
    | disconnect => simp [processCommands]
    | rpc i =>
      cases hr : run i with
      | ok r =>
        rw [workerDies, hr] at h
        simp only [List.cons_append, processCommands, hr, List.append_eq]
        rw [ih h]
      | error e => simp [processCommands, hr]

theorem processCommands_dies_shape {E R : Type} (run : Nat → Except E R)
    (cs : List WorkerCommand) (h : workerDies run cs = true) :
    ∃ pre e, processCommands run cs = pre ++ [WorkerResponse.unhandled e] := by
  induction cs with
  | nil => simp [workerDies] at h
  | cons c rest ih =>
    cases c with
    | disconnect => simp [workerDies] at h
    | rpc i =>
      cases hr : run i with
      | ok r =>
        rw [workerDies, hr] at h
        obtain ⟨pre, e, hpre⟩ := ih h
        exact ⟨.result r :: pre, e, by simp [processCommands, hr, hpre]⟩
      | error e => exact ⟨[], e, by simp [processCommands, hr]⟩

/-- C10: the exception handler of `_client_main` encloses the whole command
loop, so (i) at most one UnhandledException envelope is ever delivered per
client; (ii) when an RPC raises, the worker responds with exactly one final
UnhandledException envelope and exits; (iii) the dead worker dequeues no
further command — commands enqueued afterwards (by `_execute` calls issued
after the death) produce no response at all, so those calls block on the
response queue indefinitely. -/
theorem C10_worker_dies_once {E R : Type} (connect : Except E Unit)
    (run : Nat → Except E R) (cs extra : List WorkerCommand)
    (h : workerDies run cs = true) :
    countUnhandled (clientMain connect run cs) ≤ 1 ∧
    (∃ pre e, processCommands run cs = pre ++ [WorkerResponse.unhandled e]) ∧
    processCommands run (cs ++ extra) = processCommands run cs := by
  refine ⟨?_, processCommands_dies_shape run cs h,
    processCommands_append_of_dies run cs extra h⟩
  cases connect with
  | error e => simp [clientMain, countUnhandled]
  | ok _ =>
    simpa [clientMain, countUnhandled, List.countP_cons] using
      countUnhandled_processCommands run cs

/-- Witness for C10: a transport whose every RPC raises 7, with one command
issued before the worker dies and one after. -/
theorem C10_worker_dies_once_witness :
    workerDies (fun _ => (Except.error 7 : Except Nat Nat)) [.rpc 0] = true ∧
    countUnhandled (clientMain (.ok ()) (fun _ => (Except.error 7 : Except Nat Nat))
      [.rpc 0]) ≤ 1 ∧
    processCommands (fun _ => (Except.error 7 : Except Nat Nat))
      ([.rpc 0] ++ [.rpc 1]) =
      processCommands (fun _ => (Except.error 7 : Except Nat Nat)) [.rpc 0] := by
  have h : workerDies (fun _ => (Except.error 7 : Except Nat Nat)) [.rpc 0] =
      true := rfl
  have := C10_worker_dies_once (.ok ()) (fun _ => (Except.error 7 : Except Nat Nat))
    [.rpc 0] [.rpc 1] h
  exact ⟨h, this.1, this.2.2⟩

/-- A contiguous write region produced by the planner: a start address and
the cell values (booleans for coils, 2-byte register frames for registers)
written from that address on. -/
structure Chunk (α : Type) where
  address : Nat
  values : List α
deriving DecidableEq, Repr

/-- Extend the chunk under construction with every directly adjacent
following segment, then start a fresh chunk at the first gap. -/
def mergeAux {α : Type} (cur : Chunk α) : List (Chunk α) → List (Chunk α)
  | [] => [cur]
  | c :: rest =>
    if cur.address + cur.values.length = c.address then
      mergeAux ⟨cur.address, cur.values ++ c.values⟩ rest
    else
      cur :: mergeAux c rest

/-- Modelled from the spec (section 4.5, the payload-chunking planner;
`registers.py` and `coils.py` are not in the sources): merge consecutive
payload segments whenever one ends exactly where the next begins. -/
def mergeChunks {α : Type} : List (Chunk α) → List (Chunk α)
  | [] => []
  | c :: rest => mergeAux c rest

/-- Number of maximal address-adjacent runs in a segment sequence: a new
run starts at every segment that does not begin exactly where the previous
one ends. -/
def countRuns {α : Type} : List (Chunk α) → Nat
  | [] => 0
  | [_] => 1
  | c1 :: c2 :: rest =>
    (if c1.address + c1.values.length = c2.address then 0 else 1) +
      countRuns (c2 :: rest)

theorem countRuns_congr {α : Type} (c c' : Chunk α) (l : List (Chunk α))
    (h : c.address + c.values.length = c'.address + c'.values.length) :
    countRuns (c :: l) = countRuns (c' :: l) := by
  cases l with
  | nil => rfl
  | cons d t => simp [countRuns, h]

theorem mergeAux_length {α : Type} :
    ∀ (l : List (Chunk α)) (cur : Chunk α),
      (mergeAux cur l).length = countRuns (cur :: l) := by
  intro l
  induction l with
  | nil => intro cur; rfl
  | cons c rest ih =>
    intro cur
    rw [mergeAux]
    split
    · rename_i hadj
      rw [ih ⟨cur.address, cur.values ++ c.values⟩,
        countRuns_congr ⟨cur.address, cur.values ++ c.values⟩ c rest
          (by simp only [List.length_append]; omega)]
      simp [countRuns, hadj]
    · rename_i hadj
      simp only [List.length_cons, ih c, countRuns, if_neg hadj]
      omega

theorem mergeChunks_length {α : Type} (l : List (Chunk α)) :
    (mergeChunks l).length = countRuns l := by
  cases l with
  | nil => rfl
  | cons c rest => exact mergeAux_length rest c

theorem mergeAux_flatten {α : Type} :
    ∀ (l : List (Chunk α)) (cur : Chunk α),
      ((mergeAux cur l).map (fun c => c.values)).flatten =
        cur.values ++ (l.map (fun c => c.values)).flatten := by
  intro l
  induction l with
  | nil => intro cur; simp [mergeAux]
  | cons c rest ih =>
    intro cur
    rw [mergeAux]
    split
    · rw [ih ⟨cur.address, cur.values ++ c.values⟩]
      simp
    · simp only [List.map_cons, List.flatten_cons, ih c]

theorem mergeChunks_flatten {α : Type} (l : List (Chunk α)) :
    ((mergeChunks l).map (fun c => c.values)).flatten =
      (l.map (fun c => c.values)).flatten := by
  cases l with
  | nil => rfl
  | cons c rest =>
    rw [mergeChunks, mergeAux_flatten]
    simp

theorem mergeAux_head {α : Type} :
    ∀ (l : List (Chunk α)) (cur : Chunk α),
      ∃ vs tl, mergeAux cur l = ⟨cur.address, vs⟩ :: tl := by
  intro l
  induction l with
  | nil => intro cur; exact ⟨cur.values, [], rfl⟩
  | cons c rest ih =>
    intro cur
    rw [mergeAux]
    split
    · exact ih ⟨cur.address, cur.values ++ c.values⟩
    · exact ⟨cur.values, mergeAux c rest, rfl⟩

/-- The adjacency-or-gap ordering between consecutive planner outputs. -/
def chunkLE {α : Type} (a b : Chunk α) : Prop :=
  a.address + a.values.length ≤ b.address

theorem mergeAux_chain {α : Type} :
    ∀ (l : List (Chunk α)) (cur : Chunk α),
      List.Chain' chunkLE (cur :: l) →
      List.Chain' chunkLE (mergeAux cur l) := by
  intro l
  induction l with
  | nil => intro cur _; exact List.chain'_singleton cur
  | cons c rest ih =>
    intro cur h
    rw [List.chain'_cons] at h
    obtain ⟨hr, h2⟩ := h
    rw [mergeAux]
    split
    · rename_i hadj
      refine ih ⟨cur.address, cur.values ++ c.values⟩ ?_
      cases rest with
      | nil => exact List.chain'_singleton _
      | cons d t =>
        rw [List.chain'_cons] at h2 ⊢
        obtain ⟨hcd, ht⟩ := h2
        refine ⟨?_, ht⟩
        unfold chunkLE at *
        simp only [List.length_append]
        omega
    · obtain ⟨vs, tl, htl⟩ := mergeAux_head rest c
      rw [htl]
      exact List.Chain'.cons hr (htl ▸ ih c h2)

theorem mergeChunks_chain {α : Type} (l : List (Chunk α))
    (h : List.Chain' chunkLE l) : List.Chain' chunkLE (mergeChunks l) := by
  cases l with
  | nil => exact List.chain'_nil
  | cons c rest => exact mergeAux_chain rest c h

theorem mergeAux_nonempty {α : Type} :
    ∀ (l : List (Chunk α)) (cur : Chunk α), cur.values ≠ [] →
      (∀ c ∈ l, c.values ≠ []) →
      ∀ c ∈ mergeAux cur l, c.values ≠ [] := by
  intro l
  induction l with
  | nil =>
    intro cur hcur _ c hc
    rw [mergeAux] at hc
    rcases List.mem_singleton.mp hc with rfl
    exact hcur
  | cons c rest ih =>
    intro cur hcur h d hd
    rw [mergeAux] at hd
    split at hd
    · refine ih ⟨cur.address, cur.values ++ c.values⟩ ?_
        (fun e he => h e (by simp [he])) d hd
      simp only [ne_eq, List.append_eq_nil]
      intro hx
      exact hcur hx.1
    · rcases List.mem_cons.mp hd with hdeq | hd2
      · rw [hdeq]; exact hcur
      · exact ih c (h c (by simp)) (fun e he => h e (by simp [he])) d hd2

theorem mergeChunks_nonempty {α : Type} (l : List (Chunk α))
    (h : ∀ c ∈ l, c.values ≠ []) : ∀ c ∈ mergeChunks l, c.values ≠ [] := by
  cases l with
  | nil => simp [mergeChunks]
  | cons c rest =>
    exact mergeAux_nonempty rest c (h c (by simp))
      (fun e he => h e (by simp [he]))
theorem chain_lt_of_chain_le {α : Type} (l : List (Chunk α))
    (hc : List.Chain' chunkLE l) (hne : ∀ c ∈ l, c.values ≠ []) :
    List.Chain' (fun a b : Chunk α => a.address < b.address) l := by
  induction l with
  | nil => exact List.chain'_nil
  | cons a t ih =>
    cases t with
    | nil => exact List.chain'_singleton a
    | cons b t2 =>
      rcases hc with _ | ⟨hr, h2⟩
      refine List.Chain'.cons ?_ (ih h2 (fun c hcm => hne c (by simp [hcm])))
      have ha : a.values ≠ [] := hne a (by simp)
      have : 1 ≤ a.values.length := by
        cases hv : a.values with
        | nil => exact absurd hv ha
        | cons x xs => simp
      unfold chunkLE at hr
      omega

/-- Modelled from the spec (sections 3 and 4.4; `coils.py` is not in the
sources): a coil variable has a name, a size in bits (at least 1) and an
absolute coil address. -/
structure CoilVariable where
  name : String
  size : Nat
  address : Nat
deriving DecidableEq, Repr

/-- Modelled from the spec (section 3, the address-assignment invariants
and property P5): layout construction leaves the variables in ascending
address order without overlap, and rejects sizes below 1
(`InvalidSizeError`, tests/test_coils.py lines 17-28). -/
def coilVarsSorted (vars : List CoilVariable) : Prop :=
  List.Pairwise (fun a b => a.address + a.size ≤ b.address) vars ∧
  ∀ v ∈ vars, 1 ≤ v.size

instance (vars : List CoilVariable) : Decidable (coilVarsSorted vars) := by
  unfold coilVarsSorted; infer_instance

/-- The keys of a values map that the layout does not declare, in the
order the values map lists them. -/
def unknownKeys (names keys : List String) : List String :=
  keys.filter (fun k => !(names.contains k))

/-- Modelled from the spec (section 4.5): the written variables' payload
segments, one per variable of the layout that the values map assigns, in
layout (address) order. -/
def coilSegments (vars : List CoilVariable)
    (values : List (String × List Bool)) : List (Chunk Bool) :=
  vars.filterMap (fun v =>
    (values.lookup v.name).map (fun bits => ⟨v.address, bits⟩))

/-- Modelled from the spec (section 4.5, `CoilLayout.build_payload`):
reject a values map with undeclared keys, reporting all of them; otherwise
emit the written bit runs in address order, merged across exact adjacency. -/
def coilBuildPayload (vars : List CoilVariable)
    (values : List (String × List Bool)) :
    Except ModbusError (List (Chunk Bool)) :=
  let unknown := unknownKeys (vars.map (fun v => v.name))
    (values.map Prod.fst)
  if unknown.isEmpty then .ok (mergeChunks (coilSegments vars values))
  else .error (.variableNotFound unknown)

theorem coilSegments_mem (vars : List CoilVariable)
    (values : List (String × List Bool)) (y : Chunk Bool)
    (hy : y ∈ coilSegments vars values) :
    ∃ w ∈ vars, y.address = w.address ∧
      values.lookup w.name = some y.values := by
  unfold coilSegments at hy
  rw [List.mem_filterMap] at hy
  obtain ⟨w, hw, hsome⟩ := hy
  cases hl : values.lookup w.name with
  | none => rw [hl] at hsome; simp at hsome
  | some bits =>
    rw [hl] at hsome
    simp only [Option.map_some'] at hsome
    cases hsome
    exact ⟨w, hw, rfl, hl⟩

theorem coilSegments_chain (values : List (String × List Bool)) :
    ∀ vars : List CoilVariable,
      List.Pairwise (fun a b => a.address + a.size ≤ b.address) vars →
      (∀ v ∈ vars, ∀ bits, values.lookup v.name = some bits →
        bits.length = v.size) →
      List.Chain' chunkLE (coilSegments vars values) := by
  intro vars
  induction vars with
  | nil =>
    intro _ _
    simp [coilSegments]
  | cons v rest ih =>
    intro hp hlen
    rw [List.pairwise_cons] at hp
    obtain ⟨hv, hp'⟩ := hp
    have ihr := ih hp' (fun w hw bits hb => hlen w (by simp [hw]) bits hb)
    unfold coilSegments
    rw [List.filterMap_cons]
    cases hl : values.lookup v.name with
    | none => exact ihr
    | some bits =>
      simp only [Option.map_some']
      rw [List.chain'_cons']
      refine ⟨?_, ihr⟩
      intro y hy
      have hym : y ∈ coilSegments rest values :=
        List.mem_of_mem_head? hy
      obtain ⟨w, hw, haddr, _⟩ := coilSegments_mem rest values y hym
      have hsz := hlen v (by simp) bits hl
      have hvw := hv w hw
      unfold chunkLE
      simp only [haddr]
      omega

theorem coilSegments_nonempty (vars : List CoilVariable)
    (values : List (String × List Bool))
    (hsz : ∀ v ∈ vars, 1 ≤ v.size)
    (hlen : ∀ v ∈ vars, ∀ bits, values.lookup v.name = some bits →
      bits.length = v.size) :
    ∀ c ∈ coilSegments vars values, c.values ≠ [] := by
  intro c hc
  obtain ⟨w, hw, _, hlw⟩ := coilSegments_mem vars values c hc
  have h1 := hlen w hw c.values hlw
  have h2 := hsz w hw
  intro hnil
  rw [hnil] at h1
  simp at h1
  omega

theorem coilSegments_nil (vars : List CoilVariable) :
    coilSegments vars [] = [] := by
  induction vars with
  | nil => rfl
  | cons v rest ih =>
    unfold coilSegments at *
    rw [List.filterMap_cons]
    simp [List.lookup, ih]

/-- The kind of a register variable (spec section 3): a number with a
primitive tag, a fixed-length ASCII string, or a packed bit-field record. -/
inductive RegType where
  | num (t : DataTag)
  | str (length : Nat)
  | strct (fields : List (String × Nat))
deriving DecidableEq, Repr

/-- Modelled from the spec (section 3; `registers.py` is not in the
sources): a register variable has a name, a kind and a register address. -/
structure RegVariable where
  name : String
  type : RegType
  address : Nat
deriving DecidableEq, Repr

/-- Size in 16-bit registers: numbers take `byteCount / 2` registers,
strings `ceil(length / 2)`, structs exactly 1. -/
def RegType.size : RegType → Nat
  | .num t => t.byteCount / 2
  | .str len => (len + 1) / 2
  | .strct _ => 1

/-- A typed value written to or read from a register variable. -/
inductive RegValue where
  | int (v : Int)
  | str (s : List Nat)
  | strct (vals : List (String × Nat))
deriving DecidableEq, Repr

/-- The printable name of a tag, as carried by OutOfBoundsError. -/
def DataTag.typeName : DataTag → String
  | .u16 => "u16"
  | .i16 => "i16"
  | .u32 => "u32"
  | .i32 => "i32"
  | .u64 => "u64"
  | .i64 => "i64"
  | .f16 => "f16"
  | .f32 => "f32"
  | .f64 => "f64"

/-- Modelled from the spec (section 4.1, `add_struct`): pack the fields
MSB-first in the order listed into a single 16-bit value; any remaining
high bits stay zero. -/
def packStruct (fields : List (String × Nat))
    (vals : List (String × Nat)) : Nat :=
  fields.foldl
    (fun acc f => acc * 2 ^ f.2 + ((vals.lookup f.1).getD 0) % 2 ^ f.2) 0

/-- Modelled from the spec (section 4.1, `add_string`): the string's ASCII
bytes, right-padded with 0x20 to the variable's full register span and cut
into 2-byte frames in order (the byteorder is not applied to string bytes,
as pinned by tests/test_registers.py `test_encode_string`). -/
def strFrames (len : Nat) (s : List Nat) : List (List Nat) :=
  (toWords (s ++ List.replicate (2 * ((len + 1) / 2) - s.length) 0x20)).map
    (fun p => [p.1, p.2])

/-- Modelled from the spec (sections 3 and 4.1, the per-kind encode
dispatch): encode one register variable's value into 2-byte register
frames; a number outside its tag's range fails with OutOfBoundsError, a
string longer than the declared length and a value of the wrong kind fail
with the catch-all EncodingError. -/
def encodeVariable (bo : ByteOrder) (wo : WordOrder) :
    RegType → RegValue → Except ModbusError (List (List Nat))
  | .num t, .int v =>
    match addNumber bo wo t v with
    | .ok cs => .ok cs
    | .error _ => .error (.outOfBounds t.typeName v)
  | .str len, .str s =>
    if s.length ≤ len then .ok (strFrames len s) else .error .encoding
  | .strct fields, .strct vals =>
    .ok (buildChunks bo wo (toBytesBE 2 (packStruct fields vals)))
  | _, _ => .error .encoding

/-- Whether an `Except` computation succeeded. -/
def exceptIsOk {ε α : Type} : Except ε α → Bool
  | .ok _ => true
  | .error _ => false

/-- Modelled from the spec (section 4.5): the written register variables'
frame segments in layout order; the first failing encoding aborts with its
error. -/
def regSegments (bo : ByteOrder) (wo : WordOrder) :
    List RegVariable → List (String × RegValue) →
    Except ModbusError (List (Chunk (List Nat)))
  | [], _ => .ok []
  | v :: rest, values =>
    match values.lookup v.name with
    | none => regSegments bo wo rest values
    | some val =>
      match encodeVariable bo wo v.type val with
      | .error e => .error e
      | .ok frames =>
        match regSegments bo wo rest values with
        | .error e => .error e
        | .ok tl => .ok (⟨v.address, frames⟩ :: tl)

/-- Modelled from the spec (section 4.5, `RegisterLayout.build_payload`):
reject a values map with undeclared keys, reporting all of them; otherwise
encode the written variables and merge address-adjacent segments. -/
def regBuildPayload (bo : ByteOrder) (wo : WordOrder)
    (vars : List RegVariable) (values : List (String × RegValue)) :
    Except ModbusError (List (Chunk (List Nat))) :=
  let unknown := unknownKeys (vars.map (fun v => v.name))
    (values.map Prod.fst)
  if unknown.isEmpty then
    (regSegments bo wo vars values).map mergeChunks
  else .error (.variableNotFound unknown)

theorem toWords_length : ∀ bs : List Nat, (toWords bs).length = bs.length / 2
  | [] => rfl
  | [a] => by
    have h1 : toWords [a] = [] := rfl
    rw [h1]
    simp
  | _ :: _ :: rest => by
    simp only [toWords, List.length_cons, toWords_length rest]
    omega

theorem orderWords_length (wo : WordOrder) (ws : List (Nat × Nat)) :
    (orderWords wo ws).length = ws.length := by
  cases wo <;> simp [orderWords]

theorem buildChunks_length (bo : ByteOrder) (wo : WordOrder)
    (bs : List Nat) : (buildChunks bo wo bs).length = bs.length / 2 := by
  simp [buildChunks, orderWords_length, toWords_length]

theorem buildChunks_mem_two (bo : ByteOrder) (wo : WordOrder)
    (bs : List Nat) : ∀ c ∈ buildChunks bo wo bs, c.length = 2 := by
  intro c hc
  unfold buildChunks at hc
  rw [List.mem_map] at hc
  obtain ⟨p, _, hp⟩ := hc
  rw [← hp]
  rfl

theorem encodeVariable_num (bo : ByteOrder) (wo : WordOrder) (t : DataTag)
    (v : Int) :
    encodeVariable bo wo (.num t) (.int v) =
      match addNumber bo wo t v with
      | .ok cs => .ok cs
      | .error _ => .error (.outOfBounds t.typeName v) := rfl

theorem encodeVariable_str (bo : ByteOrder) (wo : WordOrder) (len : Nat)
    (s : List Nat) :
    encodeVariable bo wo (.str len) (.str s) =
      if s.length ≤ len then .ok (strFrames len s)
      else .error .encoding := rfl

theorem encodeVariable_strct (bo : ByteOrder) (wo : WordOrder)
    (fields vals : List (String × Nat)) :
    encodeVariable bo wo (.strct fields) (.strct vals) =
      .ok (buildChunks bo wo (toBytesBE 2 (packStruct fields vals))) := rfl

theorem encodeVariable_mismatch (bo : ByteOrder) (wo : WordOrder)
    (ty : RegType) (val : RegValue)
    (h : (match ty, val with
      | .num _, .int _ => False
      | .str _, .str _ => False
      | .strct _, .strct _ => False
      | _, _ => True)) :
    encodeVariable bo wo ty val = .error .encoding := by
  cases ty <;> cases val <;> first | rfl | exact absurd h (by simp)

theorem addNumber_ok_shape (bo : ByteOrder) (wo : WordOrder) (t : DataTag)
    (v : Int) (cs : List (List Nat)) (h : addNumber bo wo t v = .ok cs) :
    cs = buildChunks bo wo (toBytesBE t.byteCount (t.toUnsigned v)) := by
  unfold addNumber at h
  split at h
  · cases h; rfl
  · split at h
    · exact absurd h (by simp)
    · cases h; rfl

theorem encodeVariable_ok_length (bo : ByteOrder) (wo : WordOrder)
    (ty : RegType) (val : RegValue) (frames : List (List Nat))
    (h : encodeVariable bo wo ty val = .ok frames) :
    frames.length = ty.size ∧ ∀ b ∈ frames, b.length = 2 := by
  cases ty with
  | num t =>
    cases val with
    | int v =>
      rw [encodeVariable_num] at h
      cases ha : addNumber bo wo t v with
      | error e => rw [ha] at h; simp at h
      | ok cs =>
        rw [ha] at h
        simp only [] at h
        cases h
        rw [addNumber_ok_shape bo wo t v frames ha]
        refine ⟨?_, buildChunks_mem_two bo wo _⟩
        rw [buildChunks_length, toBytesBE_length]
        rfl
    | str s =>
      rw [encodeVariable_mismatch bo wo _ _ (by simp)] at h
      simp at h
    | strct vals =>
      rw [encodeVariable_mismatch bo wo _ _ (by simp)] at h
      simp at h
  | str len =>
    cases val with
    | int v =>
      rw [encodeVariable_mismatch bo wo _ _ (by simp)] at h
      simp at h
    | str s =>
      rw [encodeVariable_str] at h
      split at h
      · rename_i hle
        simp only [Except.ok.injEq] at h
        cases h
        constructor
        · rw [strFrames, List.length_map, toWords_length]
          simp only [List.length_append, List.length_replicate, RegType.size]
          omega
        · intro b hb
          rw [strFrames, List.mem_map] at hb
          obtain ⟨p, _, hp⟩ := hb
          rw [← hp]
          rfl
      · simp at h
    | strct vals =>
      rw [encodeVariable_mismatch bo wo _ _ (by simp)] at h
      simp at h
  | strct fields =>
    cases val with
    | int v =>
      rw [encodeVariable_mismatch bo wo _ _ (by simp)] at h
      simp at h
    | str s =>
      rw [encodeVariable_mismatch bo wo _ _ (by simp)] at h
      simp at h
    | strct vals =>
      rw [encodeVariable_strct] at h
      simp only [Except.ok.injEq] at h
      cases h
      refine ⟨?_, buildChunks_mem_two bo wo _⟩
      rw [buildChunks_length, toBytesBE_length]
      rfl

theorem regSegments_nil_values (bo : ByteOrder) (wo : WordOrder) :
    ∀ vars : List RegVariable, regSegments bo wo vars [] = .ok [] := by
  intro vars
  induction vars with
  | nil => rfl
  | cons v rest ih =>
    rw [regSegments]
    show regSegments bo wo rest [] = .ok []
    exact ih

theorem regSegments_mem (bo : ByteOrder) (wo : WordOrder)
    (values : List (String × RegValue)) :
    ∀ (vars : List RegVariable) (segs : List (Chunk (List Nat))),
      regSegments bo wo vars values = .ok segs →
      ∀ c ∈ segs, ∃ w ∈ vars, c.address = w.address ∧
        ∃ val, values.lookup w.name = some val ∧
          encodeVariable bo wo w.type val = .ok c.values := by
  intro vars
  induction vars with
  | nil =>
    intro segs h c hc
    rw [regSegments] at h
    simp only [Except.ok.injEq] at h
    subst h
    simp at hc
  | cons v rest ih =>
    intro segs h c hc
    rw [regSegments] at h
    cases hl : values.lookup v.name with
    | none =>
      simp only [hl] at h
      obtain ⟨w, hw, rest_props⟩ := ih segs h c hc
      exact ⟨w, by simp [hw], rest_props⟩
    | some val =>
      cases he : encodeVariable bo wo v.type val with
      | error e =>
        simp only [hl, he] at h
        exact absurd h (by simp)
      | ok frames =>
        cases hr : regSegments bo wo rest values with
        | error e =>
          simp only [hl, he, hr] at h
          exact absurd h (by simp)
        | ok tl =>
          simp only [hl, he, hr, Except.ok.injEq] at h
          subst h
          rcases List.mem_cons.mp hc with hceq | hc2
          · exact ⟨v, by simp, by rw [hceq], val, hl, by rw [hceq]; exact he⟩
          · obtain ⟨w, hw, rest_props⟩ := ih tl hr c hc2
            exact ⟨w, by simp [hw], rest_props⟩

theorem regSegments_isOk (bo : ByteOrder) (wo : WordOrder)
    (values : List (String × RegValue)) :
    ∀ vars : List RegVariable,
      (∀ v ∈ vars, ∀ val, values.lookup v.name = some val →
        exceptIsOk (encodeVariable bo wo v.type val) = true) →
      ∃ segs, regSegments bo wo vars values = .ok segs := by
  intro vars
  induction vars with
  | nil => exact fun _ => ⟨[], rfl⟩
  | cons v rest ih =>
    intro hok
    obtain ⟨tl, htl⟩ := ih (fun w hw val hv => hok w (by simp [hw]) val hv)
    cases hl : values.lookup v.name with
    | none =>
      refine ⟨tl, ?_⟩
      rw [regSegments]
      simp only [hl]
      exact htl
    | some val =>
      have hx := hok v (by simp) val hl
      cases he : encodeVariable bo wo v.type val with
      | error e => rw [he] at hx; simp [exceptIsOk] at hx
      | ok frames =>
        refine ⟨⟨v.address, frames⟩ :: tl, ?_⟩
        rw [regSegments]
        simp only [hl, he, htl]

theorem regSegments_chain (bo : ByteOrder) (wo : WordOrder)
    (values : List (String × RegValue)) :
    ∀ (vars : List RegVariable) (segs : List (Chunk (List Nat))),
      List.Pairwise
        (fun a b : RegVariable => a.address + a.type.size ≤ b.address) vars →
      regSegments bo wo vars values = .ok segs →
      List.Chain' chunkLE segs := by
  intro vars
  induction vars with
  | nil =>
    intro segs _ h
    rw [regSegments] at h
    simp only [Except.ok.injEq] at h
    subst h
    exact List.chain'_nil
  | cons v rest ih =>
    intro segs hp h
    rw [List.pairwise_cons] at hp
    obtain ⟨hv, hp'⟩ := hp
    rw [regSegments] at h
    cases hl : values.lookup v.name with
    | none =>
      simp only [hl] at h
      exact ih segs hp' h
    | some val =>
      cases he : encodeVariable bo wo v.type val with
      | error e =>
        simp only [hl, he] at h
        exact absurd h (by simp)
      | ok frames =>
        cases hr : regSegments bo wo rest values with
        | error e =>
          simp only [hl, he, hr] at h
          exact absurd h (by simp)
        | ok tl =>
          simp only [hl, he, hr, Except.ok.injEq] at h
          subst h
          rw [List.chain'_cons']
          refine ⟨?_, ih tl hp' hr⟩
          intro y hy
          have hym : y ∈ tl := List.mem_of_mem_head? hy
          obtain ⟨w, hw, haddr, _⟩ := regSegments_mem bo wo values rest tl hr y hym
          have hlen := (encodeVariable_ok_length bo wo v.type val frames he).1
          have hvw := hv w hw
          unfold chunkLE
          simp only [haddr, hlen]
          omega

theorem regSegments_nonempty (bo : ByteOrder) (wo : WordOrder)
    (values : List (String × RegValue)) (vars : List RegVariable)
    (segs : List (Chunk (List Nat)))
    (hsz : ∀ v ∈ vars, 1 ≤ v.type.size)
    (h : regSegments bo wo vars values = .ok segs) :
    ∀ c ∈ segs, c.values ≠ [] := by
  intro c hc
  obtain ⟨w, hw, _, val, _, he⟩ :=
    regSegments_mem bo wo values vars segs h c hc
  have hlen := (encodeVariable_ok_length bo wo w.type val c.values he).1
  have hs := hsz w hw
  intro hnil
  rw [hnil] at hlen
  simp at hlen
  omega

theorem regSegments_frame_two (bo : ByteOrder) (wo : WordOrder)
    (values : List (String × RegValue)) (vars : List RegVariable)
    (segs : List (Chunk (List Nat)))
    (h : regSegments bo wo vars values = .ok segs) :
    ∀ c ∈ segs, ∀ b ∈ c.values, b.length = 2 := by
  intro c hc
  obtain ⟨w, hw, _, val, _, he⟩ :=
    regSegments_mem bo wo values vars segs h c hc
  exact (encodeVariable_ok_length bo wo w.type val c.values he).2

theorem lookup_mem {β : Type} (l : List (String × β)) (k : String) (v : β)
    (h : l.lookup k = some v) : (k, v) ∈ l := by
  induction l with
  | nil => simp [List.lookup] at h
  | cons p rest ih =>
    rw [List.lookup] at h
    cases hk : k == p.1 with
    | true =>
      rw [hk] at h
      simp only [Option.some.injEq] at h
      subst h
      have hkp : k = p.1 := beq_iff_eq.mp hk
      subst hkp
      simp
    | false =>
      rw [hk] at h
      simp only [] at h
      exact List.mem_cons_of_mem p (ih h)

/-- C2: for every layout (coil or register) and every values map whose
keys all belong to the layout, `build_payload` succeeds and returns chunks
in strictly ascending address order; the concatenation of the chunk
contents equals the concatenation of the written variables' encodings in
layout order (each written variable appears exactly once); the number of
chunks equals the number of maximal address-adjacent runs of written
variables (`countRuns` over the written segments, whose extent is the
variable's declared size — a declared variable absent from the values map
breaks a run because its segment is simply missing); an empty values map
yields an empty list.  Finally, on the spec's S4 coil layout
x@2/3, y@7/1, z@8/5, u@13/1, v@14/2, writing x, y, z and v yields exactly
the three chunks (2,[0,1,0]), (7,[1,0,0,1,1,0]) and (14,[0,1]). -/
theorem C2_build_payload_chunking :
    (∀ (vars : List CoilVariable) (values : List (String × List Bool)),
      coilVarsSorted vars →
      unknownKeys (vars.map (fun v => v.name)) (values.map Prod.fst) = [] →
      (∀ p ∈ values, ∀ v ∈ vars, v.name = p.1 → p.2.length = v.size) →
      ∃ chunks, coilBuildPayload vars values = .ok chunks ∧
        chunks.length = countRuns (coilSegments vars values) ∧
        List.Chain' (fun a b : Chunk Bool => a.address < b.address) chunks ∧
        (chunks.map (fun c => c.values)).flatten =
          ((coilSegments vars values).map (fun c => c.values)).flatten ∧
        (values = [] → chunks = [])) ∧
    (∀ (bo : ByteOrder) (wo : WordOrder) (vars : List RegVariable)
        (values : List (String × RegValue)) (segs : List (Chunk (List Nat))),
      List.Pairwise
        (fun a b : RegVariable => a.address + a.type.size ≤ b.address) vars →
      (∀ v ∈ vars, 1 ≤ v.type.size) →
      unknownKeys (vars.map (fun v => v.name)) (values.map Prod.fst) = [] →
      regSegments bo wo vars values = .ok segs →
      regBuildPayload bo wo vars values = .ok (mergeChunks segs) ∧
        (mergeChunks segs).length = countRuns segs ∧
        List.Chain' (fun a b : Chunk (List Nat) => a.address < b.address)
          (mergeChunks segs) ∧
        ((mergeChunks segs).map (fun c => c.values)).flatten =
          (segs.map (fun c => c.values)).flatten ∧
        (values = [] → mergeChunks segs = [])) ∧
    coilBuildPayload
      [⟨"x", 3, 2⟩, ⟨"y", 1, 7⟩, ⟨"z", 5, 8⟩, ⟨"u", 1, 13⟩, ⟨"v", 2, 14⟩]
      [("x", [false, true, false]), ("y", [true]),
       ("z", [false, false, true, true, false]), ("v", [false, true])] =
      .ok [⟨2, [false, true, false]⟩,
           ⟨7, [true, false, false, true, true, false]⟩,
           ⟨14, [false, true]⟩] := by
  refine ⟨?_, ?_, by rfl⟩
  · intro vars values hsorted hunk hlen
    have hlen' : ∀ v ∈ vars, ∀ bits, values.lookup v.name = some bits →
        bits.length = v.size := by
      intro v hv bits hb
      exact hlen (v.name, bits) (lookup_mem values v.name bits hb) v hv rfl
    have hchain := coilSegments_chain values vars hsorted.1 hlen'
    have hne := coilSegments_nonempty vars values hsorted.2 hlen'
    refine ⟨mergeChunks (coilSegments vars values), ?_,
      mergeChunks_length _, ?_, mergeChunks_flatten _, ?_⟩
    · simp [coilBuildPayload, hunk]
    · exact chain_lt_of_chain_le _ (mergeChunks_chain _ hchain)
        (mergeChunks_nonempty _ hne)
    · intro hv
      subst hv
      rw [coilSegments_nil]
      rfl
  · intro bo wo vars values segs hp hsz hunk hsegs
    refine ⟨?_, mergeChunks_length _, ?_, mergeChunks_flatten _, ?_⟩
    · simp [regBuildPayload, hunk, hsegs, Except.map]
    · exact chain_lt_of_chain_le _
        (mergeChunks_chain _ (regSegments_chain bo wo values vars segs hp hsegs))
        (mergeChunks_nonempty _
          (regSegments_nonempty bo wo values vars segs hsz hsegs))
    · intro hv
      subst hv
      rw [regSegments_nil_values] at hsegs
      simp only [Except.ok.injEq] at hsegs
      subst hsegs
      rfl

/-- Witness for C2 at the spec's S4 coil layout and values map, and at a
two-variable u16 register layout. -/
theorem C2_build_payload_chunking_witness :
    (∃ chunks, coilBuildPayload
        [⟨"x", 3, 2⟩, ⟨"y", 1, 7⟩, ⟨"z", 5, 8⟩, ⟨"u", 1, 13⟩, ⟨"v", 2, 14⟩]
        [("x", [false, true, false]), ("y", [true]),
         ("z", [false, false, true, true, false]), ("v", [false, true])] =
        .ok chunks ∧
      chunks.length = countRuns (coilSegments
        [⟨"x", 3, 2⟩, ⟨"y", 1, 7⟩, ⟨"z", 5, 8⟩, ⟨"u", 1, 13⟩, ⟨"v", 2, 14⟩]
        [("x", [false, true, false]), ("y", [true]),
         ("z", [false, false, true, true, false]), ("v", [false, true])]) ∧
      List.Chain' (fun a b : Chunk Bool => a.address < b.address) chunks ∧
      (chunks.map (fun c => c.values)).flatten =
        ((coilSegments
          [⟨"x", 3, 2⟩, ⟨"y", 1, 7⟩, ⟨"z", 5, 8⟩, ⟨"u", 1, 13⟩, ⟨"v", 2, 14⟩]
          [("x", [false, true, false]), ("y", [true]),
           ("z", [false, false, true, true, false]),
           ("v", [false, true])]).map (fun c => c.values)).flatten ∧
      ([("x", [false, true, false]), ("y", [true]),
        ("z", [false, false, true, true, false]),
        ("v", [false, true])] = ([] : List (String × List Bool)) →
        chunks = [])) ∧
    regBuildPayload .big .big
      [⟨"a", .num .u16, 0⟩, ⟨"b", .num .u16, 1⟩]
      [("a", .int 7), ("b", .int 8)] =
      .ok (mergeChunks [⟨0, [[0, 7]]⟩, ⟨1, [[0, 8]]⟩]) := by
  constructor
  · exact C2_build_payload_chunking.1
      [⟨"x", 3, 2⟩, ⟨"y", 1, 7⟩, ⟨"z", 5, 8⟩, ⟨"u", 1, 13⟩, ⟨"v", 2, 14⟩]
      [("x", [false, true, false]), ("y", [true]),
       ("z", [false, false, true, true, false]), ("v", [false, true])]
      (by decide) (by rfl) (by decide)
  · exact (C2_build_payload_chunking.2.1 .big .big
      [⟨"a", .num .u16, 0⟩, ⟨"b", .num .u16, 1⟩]
      [("a", .int 7), ("b", .int 8)]
      [⟨0, [[0, 7]]⟩, ⟨1, [[0, 8]]⟩]
      (by decide) (by decide) (by rfl) (by rfl)).1

/-- The lowest coil address of the layout (the spec's `layout.address`). -/
def coilLayoutAddress (vars : List CoilVariable) : Nat :=
  match vars with
  | [] => 0
  | v :: rest => (rest.map (fun w => w.address)).foldl min v.address

/-- Modelled from the spec (section 4.4, `decode_coils`): reject unknown
requested names (all of them); otherwise return, for each requested
variable in layout order, its bits sliced from the raw readout of
`[layout.address, layout.end)`. -/
def decodeCoils (vars : List CoilVariable) (bits : List Bool)
    (req : Option (List String)) :
    Except ModbusError (List (String × List Bool)) :=
  let names := vars.map (fun v => v.name)
  let requested := req.getD names
  let unknown := unknownKeys names requested
  if unknown.isEmpty then
    .ok ((vars.filter (fun v => requested.contains v.name)).map
      (fun v => (v.name,
        (bits.drop (v.address - coilLayoutAddress vars)).take v.size)))
  else .error (.variableNotFound unknown)

/-- The local datastore and the transport deliver each register as one
big-endian 16-bit integer; the decoder re-reads it as its high byte
followed by its low byte (the inverse of context.py's
`_bytes_to_16bit_int`). -/
def regsToPayload (regs : List Nat) : List Nat :=
  (regs.map (fun r => [r / 256 % 256, r % 256])).flatten

def unpackStructRev : List (String × Nat) → Nat → List (String × Nat)
  | [], _ => []
  | f :: rest, x => (f.1, x % 2 ^ f.2) :: unpackStructRev rest (x / 2 ^ f.2)

/-- Modelled from the spec (section 4.3): decoding a struct unpacks the
fields MSB-first from the low bits of the packed register value. -/
def unpackStruct (fields : List (String × Nat)) (x : Nat) :
    List (String × Nat) :=
  (unpackStructRev fields.reverse x).reverse

/-- Modelled from the spec (sections 4.2-4.3, the per-kind decode
dispatch): numbers decode through the byte/word-ordered number path,
strings return the raw `length`-byte ASCII string, structs unpack one
16-bit register into a field map. -/
def decodeVariable (bo : ByteOrder) (wo : WordOrder) :
    RegType → List Nat → RegValue
  | .num t, payload => .int (decodeNumber bo wo t (payload.take t.byteCount))
  | .str len, payload => .str (payload.take len)
  | .strct fields, payload =>
    .strct (unpackStruct fields (decodeNumber bo wo .u16 (payload.take 2)).toNat)

/-- The lowest register address of the layout. -/
def regLayoutAddress (vars : List RegVariable) : Nat :=
  match vars with
  | [] => 0
  | v :: rest => (rest.map (fun w => w.address)).foldl min v.address

/-- Modelled from the spec (section 4.3, `decode_registers`): reject
unknown requested names (all of them); otherwise decode each requested
variable from its slice of the flat byte payload of the raw readout. -/
def decodeRegisters (bo : ByteOrder) (wo : WordOrder)
    (vars : List RegVariable) (regs : List Nat)
    (req : Option (List String)) :
    Except ModbusError (List (String × RegValue)) :=
  let names := vars.map (fun v => v.name)
  let requested := req.getD names
  let unknown := unknownKeys names requested
  if unknown.isEmpty then
    .ok ((vars.filter (fun v => requested.contains v.name)).map
      (fun v => (v.name, decodeVariable bo wo v.type
        ((regsToPayload regs).drop (2 * (v.address - regLayoutAddress vars))))))
  else .error (.variableNotFound unknown)

/-- C9: whenever the values map passed to `build_payload` (or the
variables set passed to `decode_registers`/`decode_coils`) contains keys
the layout does not declare, the operation fails with VariableNotFoundError
carrying precisely the list of all undeclared keys — the error identifies
every unknown key, not just the first one encountered (final conjunct). -/
theorem C9_unknown_keys_rejected :
    (∀ (vars : List CoilVariable) (values : List (String × List Bool)),
      unknownKeys (vars.map (fun v => v.name)) (values.map Prod.fst) ≠ [] →
      coilBuildPayload vars values = .error (.variableNotFound
        (unknownKeys (vars.map (fun v => v.name)) (values.map Prod.fst)))) ∧
    (∀ (bo : ByteOrder) (wo : WordOrder) (vars : List RegVariable)
        (values : List (String × RegValue)),
      unknownKeys (vars.map (fun v => v.name)) (values.map Prod.fst) ≠ [] →
      regBuildPayload bo wo vars values = .error (.variableNotFound
        (unknownKeys (vars.map (fun v => v.name)) (values.map Prod.fst)))) ∧
    (∀ (vars : List CoilVariable) (bits : List Bool) (req : List String),
      unknownKeys (vars.map (fun v => v.name)) req ≠ [] →
      decodeCoils vars bits (some req) = .error (.variableNotFound
        (unknownKeys (vars.map (fun v => v.name)) req))) ∧
    (∀ (bo : ByteOrder) (wo : WordOrder) (vars : List RegVariable)
        (regs : List Nat) (req : List String),
      unknownKeys (vars.map (fun v => v.name)) req ≠ [] →
      decodeRegisters bo wo vars regs (some req) = .error (.variableNotFound
        (unknownKeys (vars.map (fun v => v.name)) req))) ∧
    (∀ (names keys : List String) (k : String),
      k ∈ unknownKeys names keys ↔ k ∈ keys ∧ ¬ k ∈ names) := by
  refine ⟨?_, ?_, ?_, ?_, ?_⟩
  · intro vars values h
    simp [coilBuildPayload, List.isEmpty_iff, h]
  · intro bo wo vars values h
    simp [regBuildPayload, List.isEmpty_iff, h]
  · intro vars bits req h
    simp [decodeCoils, List.isEmpty_iff, h]
  · intro bo wo vars regs req h
    simp [decodeRegisters, List.isEmpty_iff, h]
  · intro names keys k
    simp [unknownKeys, List.mem_filter]

/-- Witness for C9: a one-variable coil layout rejecting a values map with
the two undeclared keys "w" and "q", reporting both. -/
theorem C9_unknown_keys_rejected_witness :
    unknownKeys (([⟨"x", 1, 0⟩] : List CoilVariable).map (fun v => v.name))
      ([("x", [true]), ("w", [true]), ("q", [false])].map Prod.fst) ≠ [] ∧
    coilBuildPayload [⟨"x", 1, 0⟩]
      [("x", [true]), ("w", [true]), ("q", [false])] =
      .error (.variableNotFound ["w", "q"]) := by
  have h : unknownKeys
      (([⟨"x", 1, 0⟩] : List CoilVariable).map (fun v => v.name))
      ([("x", [true]), ("w", [true]), ("q", [false])].map Prod.fst) =
      ["w", "q"] := by rfl
  refine ⟨by decide, ?_⟩
  have h2 := C9_unknown_keys_rejected.1 [⟨"x", 1, 0⟩]
    [("x", [true]), ("w", [true]), ("q", [false])] (by decide)
  rw [h2, h]

/-- `_bytes_to_16bit_int` (context.py lines 365-374): two bytes to one
big-endian 16-bit integer. -/
def bytesTo16BitInt (b : List Nat) : Nat :=
  256 * b.headD 0 + b.tail.headD 0

/-- `ServerContext.set_holding_registers` (context.py lines 149-176):
build the payload chunks and write, at each chunk's address, the chunk's
2-byte frames each converted by `_bytes_to_16bit_int`.  The returned list
models the `setValues` calls issued to the datastore. -/
def setHoldingRegisters (bo : ByteOrder) (wo : WordOrder)
    (vars : List RegVariable) (values : List (String × RegValue)) :
    Except ModbusError (List (Chunk Nat)) :=
  (regBuildPayload bo wo vars values).map
    (fun payloads => payloads.map
      (fun p => ⟨p.address, p.values.map bytesTo16BitInt⟩))

/-- `ServerContext.set_input_registers` (context.py lines 88-115):
identical conversion for the input-register sub-space. -/
def setInputRegisters (bo : ByteOrder) (wo : WordOrder)
    (vars : List RegVariable) (values : List (String × RegValue)) :
    Except ModbusError (List (Chunk Nat)) :=
  (regBuildPayload bo wo vars values).map
    (fun payloads => payloads.map
      (fun p => ⟨p.address, p.values.map bytesTo16BitInt⟩))

theorem regBuildPayload_frames_two (bo : ByteOrder) (wo : WordOrder)
    (vars : List RegVariable) (values : List (String × RegValue))
    (payloads : List (Chunk (List Nat)))
    (h : regBuildPayload bo wo vars values = .ok payloads) :
    ∀ p ∈ payloads, ∀ b ∈ p.values, b.length = 2 := by
  simp only [regBuildPayload] at h
  split at h
  · cases hsegs : regSegments bo wo vars values with
    | error e => rw [hsegs] at h; simp [Except.map] at h
    | ok segs =>
      rw [hsegs] at h
      simp only [Except.map, Except.ok.injEq] at h
      subst h
      intro p hp b hb
      have hsub : b ∈ ((mergeChunks segs).map (fun c => c.values)).flatten := by
        rw [List.mem_flatten]
        exact ⟨p.values, List.mem_map_of_mem _ hp, hb⟩
      rw [mergeChunks_flatten, List.mem_flatten] at hsub
      obtain ⟨vs, hvs, hbvs⟩ := hsub
      rw [List.mem_map] at hvs
      obtain ⟨c, hc, hcv⟩ := hvs
      exact regSegments_frame_two bo wo values vars segs hsegs c hc b
        (hcv ▸ hbvs)
  · simp at h

/-- C8: for every layout, every values map and every byteorder and
wordorder, when the local ServerContext writes register payloads
(`set_holding_registers` and `set_input_registers`) it stores, for every
register of every chunk produced by the builder, the single integer
`256 * b[0] + b[1]` (high byte times 256 plus low byte) computed from that
register's 2-byte frame `b` — and every frame indeed has exactly 2 bytes. -/
theorem C8_local_store_conversion (bo : ByteOrder) (wo : WordOrder)
    (vars : List RegVariable) (values : List (String × RegValue))
    (payloads : List (Chunk (List Nat)))
    (h : regBuildPayload bo wo vars values = .ok payloads) :
    setHoldingRegisters bo wo vars values =
      .ok (payloads.map (fun p =>
        ⟨p.address, p.values.map (fun b => 256 * b.headD 0 + b.tail.headD 0)⟩)) ∧
    setInputRegisters bo wo vars values =
      .ok (payloads.map (fun p =>
        ⟨p.address, p.values.map (fun b => 256 * b.headD 0 + b.tail.headD 0)⟩)) ∧
    (∀ p ∈ payloads, ∀ b ∈ p.values, b.length = 2) := by
  refine ⟨?_, ?_, regBuildPayload_frames_two bo wo vars values payloads h⟩ <;>
    simp [setHoldingRegisters, setInputRegisters, h, Except.map, bytesTo16BitInt]

/-- Witness for C8 at a two-variable u16 register layout under little
byteorder: the stored integers are 256*b[0]+b[1] of the little-endian
frames. -/
theorem C8_local_store_conversion_witness :
    regBuildPayload .little .big
      [⟨"a", .num .u16, 0⟩, ⟨"b", .num .u16, 1⟩]
      [("a", .int 513), ("b", .int 2)] =
      .ok [⟨0, [[1, 2], [2, 0]]⟩] ∧
    setHoldingRegisters .little .big
      [⟨"a", .num .u16, 0⟩, ⟨"b", .num .u16, 1⟩]
      [("a", .int 513), ("b", .int 2)] =
      .ok [⟨0, [256 * 1 + 2, 256 * 2 + 0]⟩] := by
  have h : regBuildPayload .little .big
      [⟨"a", .num .u16, 0⟩, ⟨"b", .num .u16, 1⟩]
      [("a", .int 513), ("b", .int 2)] =
      .ok [⟨0, [[1, 2], [2, 0]]⟩] := by rfl
  refine ⟨h, ?_⟩
  have h2 := (C8_local_store_conversion .little .big
    [⟨"a", .num .u16, 0⟩, ⟨"b", .num .u16, 1⟩]
    [("a", .int 513), ("b", .int 2)] [⟨0, [[1, 2], [2, 0]]⟩] h).1
  rw [h2]
  rfl

/-- `Protocol.read_holding_registers` (async_io.py lines 98-129): one
range read; fail with ModbusResponseError carrying the response when its
function code is not 0x03, else decode. -/
def protocolReadHoldingRegisters (bo : ByteOrder) (wo : WordOrder)
    (vars : List RegVariable) (req : Option (List String)) (resp : Response) :
    Except ModbusError (List (String × RegValue)) :=
  if resp.function_code ≠ 3 then .error (.modbusResponse resp)
  else decodeRegisters bo wo vars resp.registers req

/-- `Protocol.read_input_registers` (async_io.py lines 41-71): expected
function code 0x04. -/
def protocolReadInputRegisters (bo : ByteOrder) (wo : WordOrder)
    (vars : List RegVariable) (req : Option (List String)) (resp : Response) :
    Except ModbusError (List (String × RegValue)) :=
  if resp.function_code ≠ 4 then .error (.modbusResponse resp)
  else decodeRegisters bo wo vars resp.registers req

/-- `Protocol.read_coils` (async_io.py lines 260-290): expected function
code 0x01; decodes the response's bits. -/
def protocolReadCoils (vars : List CoilVariable)
    (req : Option (List String)) (resp : Response) :
    Except ModbusError (List (String × List Bool)) :=
  if resp.function_code ≠ 1 then .error (.modbusResponse resp)
  else decodeCoils vars resp.bits req

/-- `Protocol.read_discrete_inputs` (async_io.py lines 314-344): expected
function code 0x02. -/
def protocolReadDiscreteInputs (vars : List CoilVariable)
    (req : Option (List String)) (resp : Response) :
    Except ModbusError (List (String × List Bool)) :=
  if resp.function_code ≠ 2 then .error (.modbusResponse resp)
  else decodeCoils vars resp.bits req

/-- The per-chunk response check of the write loops (async_io.py lines
180-187 and 232-239; threaded.py lines 343-354 and 399-406): each chunk is
written in turn and its response must carry the expected function code;
`respond i` is the transport's response to the i-th chunk write. -/
def checkWriteResponses (expected : Nat) (respond : Nat → Response) :
    Nat → Nat → Except ModbusError Unit
  | _, 0 => .ok ()
  | i, n + 1 =>
    if (respond i).function_code ≠ expected then
      .error (.modbusResponse (respond i))
    else checkWriteResponses expected respond (i + 1) n

/-- `Protocol.write_holding_registers` (async_io.py lines 157-187): one
write request per payload chunk, each response checked against function
code 0x10. -/
def protocolWriteHoldingRegisters (bo : ByteOrder) (wo : WordOrder)
    (vars : List RegVariable) (values : List (String × RegValue))
    (respond : Nat → Response) : Except ModbusError Unit :=
  match regBuildPayload bo wo vars values with
  | .error e => .error e
  | .ok payloads => checkWriteResponses 16 respond 0 payloads.length

/-- `Protocol.write_coils` (async_io.py lines 210-239): one write request
per payload chunk, each response checked against function code 0x0F. -/
def protocolWriteCoils (vars : List CoilVariable)
    (values : List (String × List Bool)) (respond : Nat → Response) :
    Except ModbusError Unit :=
  match coilBuildPayload vars values with
  | .error e => .error e
  | .ok payloads => checkWriteResponses 15 respond 0 payloads.length

/-- `Client.read_holding_registers` (threaded.py lines 262-293): the
threaded client's RPC-based variant of the same read, with the identical
response validation. -/
def clientReadHoldingRegisters (bo : ByteOrder) (wo : WordOrder)
    (vars : List RegVariable) (req : Option (List String)) (resp : Response) :
    Except ModbusError (List (String × RegValue)) :=
  if resp.function_code ≠ 3 then .error (.modbusResponse resp)
  else decodeRegisters bo wo vars resp.registers req

/-- `Client.read_input_registers` (threaded.py lines 208-238). -/
def clientReadInputRegisters (bo : ByteOrder) (wo : WordOrder)
    (vars : List RegVariable) (req : Option (List String)) (resp : Response) :
    Except ModbusError (List (String × RegValue)) :=
  if resp.function_code ≠ 4 then .error (.modbusResponse resp)
  else decodeRegisters bo wo vars resp.registers req

/-- `Client.read_coils` (threaded.py lines 427-457). -/
def clientReadCoils (vars : List CoilVariable)
    (req : Option (List String)) (resp : Response) :
    Except ModbusError (List (String × List Bool)) :=
  if resp.function_code ≠ 1 then .error (.modbusResponse resp)
  else decodeCoils vars resp.bits req

/-- `Client.read_discrete_inputs` (threaded.py lines 480-510). -/
def clientReadDiscreteInputs (vars : List CoilVariable)
    (req : Option (List String)) (resp : Response) :
    Except ModbusError (List (String × List Bool)) :=
  if resp.function_code ≠ 2 then .error (.modbusResponse resp)
  else decodeCoils vars resp.bits req

/-- `Client.write_holding_registers` (threaded.py lines 320-354). -/
def clientWriteHoldingRegisters (bo : ByteOrder) (wo : WordOrder)
    (vars : List RegVariable) (values : List (String × RegValue))
    (respond : Nat → Response) : Except ModbusError Unit :=
  match regBuildPayload bo wo vars values with
  | .error e => .error e
  | .ok payloads => checkWriteResponses 16 respond 0 payloads.length

/-- `Client.write_coils` (threaded.py lines 377-406). -/
def clientWriteCoils (vars : List CoilVariable)
    (values : List (String × List Bool)) (respond : Nat → Response) :
    Except ModbusError Unit :=
  match coilBuildPayload vars values with
  | .error e => .error e
  | .ok payloads => checkWriteResponses 15 respond 0 payloads.length

theorem decodeRegisters_no_modbusResponse (bo : ByteOrder) (wo : WordOrder)
    (vars : List RegVariable) (regs : List Nat) (req : Option (List String))
    (r : Response) :
    decodeRegisters bo wo vars regs req ≠ .error (.modbusResponse r) := by
  simp only [decodeRegisters]
  split <;> simp

theorem decodeCoils_no_modbusResponse (vars : List CoilVariable)
    (bits : List Bool) (req : Option (List String)) (r : Response) :
    decodeCoils vars bits req ≠ .error (.modbusResponse r) := by
  simp only [decodeCoils]
  split <;> simp

theorem validateGate {α : Type} (k : Nat) (resp : Response)
    (next : Except ModbusError α)
    (hnext : ∀ r, next ≠ .error (.modbusResponse r)) :
    (resp.function_code = k →
      (if resp.function_code ≠ k then
        Except.error (ModbusError.modbusResponse resp) else next) = next) ∧
    (∀ r, (if resp.function_code ≠ k then
        Except.error (ModbusError.modbusResponse resp) else next) =
        .error (.modbusResponse r) ↔ resp.function_code ≠ k ∧ r = resp) := by
  constructor
  · intro hk
    rw [if_neg (by simp [hk])]
  · intro r
    by_cases hk : resp.function_code = k
    · rw [if_neg (by simp [hk])]
      simp [hk, hnext r]
    · rw [if_pos hk]
      constructor
      · intro he
        simp only [Except.error.injEq, ModbusError.modbusResponse.injEq] at he
        exact ⟨hk, he.symm⟩
      · rintro ⟨_, rfl⟩
        rfl

theorem checkWriteResponses_ok (expected : Nat) (respond : Nat → Response) :
    ∀ (n i : Nat), (∀ j < n, (respond (i + j)).function_code = expected) →
      checkWriteResponses expected respond i n = .ok () := by
  intro n
  induction n with
  | zero => intro i _; rfl
  | succ n ih =>
    intro i hok
    rw [checkWriteResponses]
    rw [if_neg (by simpa using hok 0 (by omega))]
    refine ih (i + 1) ?_
    intro j hj
    rw [show i + 1 + j = i + (j + 1) by omega]
    exact hok (j + 1) (by omega)

theorem checkWriteResponses_bad (expected : Nat) (respond : Nat → Response) :
    ∀ (n i m : Nat), m < n →
      (respond (i + m)).function_code ≠ expected →
      (∀ j < m, (respond (i + j)).function_code = expected) →
      checkWriteResponses expected respond i n =
        .error (.modbusResponse (respond (i + m))) := by
  intro n
  induction n with
  | zero => intro i m hm; omega
  | succ n ih =>
    intro i m hm hbad hok
    rw [checkWriteResponses]
    cases m with
    | zero =>
      rw [if_pos (by simpa using hbad)]
      simp
    | succ m2 =>
      rw [if_neg (by simpa using hok 0 (by omega))]
      rw [show i + (m2 + 1) = i + 1 + m2 by omega]
      refine ih (i + 1) m2 (by omega) ?_ ?_
      · rw [show i + 1 + m2 = i + (m2 + 1) by omega]
        exact hbad
      · intro j hj
        rw [show i + 1 + j = i + (j + 1) by omega]
        exact hok (j + 1) (by omega)

/-- C7: for every read and write operation of the remote facades (the
async `Protocol` of async_io.py and the threaded `Client` of threaded.py),
the operation fails with ModbusResponseError carrying the transport
response exactly when the response's function code differs from the code
expected for that operation (0x01 read coils, 0x02 read discrete inputs,
0x03 read holding, 0x04 read input, 0x0F write coils, 0x10 write
registers); when the codes match, reads return the decoded result and
writes whose every per-chunk response matches succeed, while the first
mismatching per-chunk response aborts the write with ModbusResponseError
carrying that response. -/
theorem C7_response_validation :
    (∀ (bo : ByteOrder) (wo : WordOrder) (vars : List RegVariable)
        (req : Option (List String)) (resp : Response),
      (resp.function_code = 3 →
        protocolReadHoldingRegisters bo wo vars req resp =
          decodeRegisters bo wo vars resp.registers req) ∧
      (∀ r, protocolReadHoldingRegisters bo wo vars req resp =
          .error (.modbusResponse r) ↔ resp.function_code ≠ 3 ∧ r = resp)) ∧
    (∀ (bo : ByteOrder) (wo : WordOrder) (vars : List RegVariable)
        (req : Option (List String)) (resp : Response),
      (resp.function_code = 4 →
        protocolReadInputRegisters bo wo vars req resp =
          decodeRegisters bo wo vars resp.registers req) ∧
      (∀ r, protocolReadInputRegisters bo wo vars req resp =
          .error (.modbusResponse r) ↔ resp.function_code ≠ 4 ∧ r = resp)) ∧
    (∀ (vars : List CoilVariable) (req : Option (List String))
        (resp : Response),
      (resp.function_code = 1 →
        protocolReadCoils vars req resp = decodeCoils vars resp.bits req) ∧
      (∀ r, protocolReadCoils vars req resp =
          .error (.modbusResponse r) ↔ resp.function_code ≠ 1 ∧ r = resp)) ∧
    (∀ (vars : List CoilVariable) (req : Option (List String))
        (resp : Response),
      (resp.function_code = 2 →
        protocolReadDiscreteInputs vars req resp =
          decodeCoils vars resp.bits req) ∧
      (∀ r, protocolReadDiscreteInputs vars req resp =
          .error (.modbusResponse r) ↔ resp.function_code ≠ 2 ∧ r = resp)) ∧
    (∀ (bo : ByteOrder) (wo : WordOrder) (vars : List RegVariable)
        (values : List (String × RegValue)) (respond : Nat → Response)
        (payloads : List (Chunk (List Nat))),
      regBuildPayload bo wo vars values = .ok payloads →
      ((∀ i < payloads.length, (respond i).function_code = 16) →
        protocolWriteHoldingRegisters bo wo vars values respond = .ok ()) ∧
      (∀ m < payloads.length, (respond m).function_code ≠ 16 →
        (∀ j < m, (respond j).function_code = 16) →
        protocolWriteHoldingRegisters bo wo vars values respond =
          .error (.modbusResponse (respond m)))) ∧
    (∀ (vars : List CoilVariable) (values : List (String × List Bool))
        (respond : Nat → Response) (payloads : List (Chunk Bool)),
      coilBuildPayload vars values = .ok payloads →
      ((∀ i < payloads.length, (respond i).function_code = 15) →
        protocolWriteCoils vars values respond = .ok ()) ∧
      (∀ m < payloads.length, (respond m).function_code ≠ 15 →
        (∀ j < m, (respond j).function_code = 15) →
        protocolWriteCoils vars values respond =
          .error (.modbusResponse (respond m)))) ∧
    (∀ (bo : ByteOrder) (wo : WordOrder) (vars : List RegVariable)
        (req : Option (List String)) (resp : Response),
      (resp.function_code = 3 →
        clientReadHoldingRegisters bo wo vars req resp =
          decodeRegisters bo wo vars resp.registers req) ∧
      (∀ r, clientReadHoldingRegisters bo wo vars req resp =
          .error (.modbusResponse r) ↔ resp.function_code ≠ 3 ∧ r = resp)) ∧
    (∀ (bo : ByteOrder) (wo : WordOrder) (vars : List RegVariable)
        (req : Option (List String)) (resp : Response),
      (resp.function_code = 4 →
        clientReadInputRegisters bo wo vars req resp =
          decodeRegisters bo wo vars resp.registers req) ∧
      (∀ r, clientReadInputRegisters bo wo vars req resp =
          .error (.modbusResponse r) ↔ resp.function_code ≠ 4 ∧ r = resp)) ∧
    (∀ (vars : List CoilVariable) (req : Option (List String))
        (resp : Response),
      (resp.function_code = 1 →
        clientReadCoils vars req resp = decodeCoils vars resp.bits req) ∧
      (∀ r, clientReadCoils vars req resp =
          .error (.modbusResponse r) ↔ resp.function_code ≠ 1 ∧ r = resp)) ∧
    (∀ (vars : List CoilVariable) (req : Option (List String))
        (resp : Response),
      (resp.function_code = 2 →
        clientReadDiscreteInputs vars req resp =
          decodeCoils vars resp.bits req) ∧
      (∀ r, clientReadDiscreteInputs vars req resp =
          .error (.modbusResponse r) ↔ resp.function_code ≠ 2 ∧ r = resp)) ∧
    (∀ (bo : ByteOrder) (wo : WordOrder) (vars : List RegVariable)
        (values : List (String × RegValue)) (respond : Nat → Response)
        (payloads : List (Chunk (List Nat))),
      regBuildPayload bo wo vars values = .ok payloads →
      ((∀ i < payloads.length, (respond i).function_code = 16) →
        clientWriteHoldingRegisters bo wo vars values respond = .ok ()) ∧
      (∀ m < payloads.length, (respond m).function_code ≠ 16 →
        (∀ j < m, (respond j).function_code = 16) →
        clientWriteHoldingRegisters bo wo vars values respond =
          .error (.modbusResponse (respond m)))) ∧
    (∀ (vars : List CoilVariable) (values : List (String × List Bool))
        (respond : Nat → Response) (payloads : List (Chunk Bool)),
      coilBuildPayload vars values = .ok payloads →
      ((∀ i < payloads.length, (respond i).function_code = 15) →
        clientWriteCoils vars values respond = .ok ()) ∧
      (∀ m < payloads.length, (respond m).function_code ≠ 15 →
        (∀ j < m, (respond j).function_code = 15) →
        clientWriteCoils vars values respond =
          .error (.modbusResponse (respond m)))) := by
  refine ⟨?_, ?_, ?_, ?_, ?_, ?_, ?_, ?_, ?_, ?_, ?_, ?_⟩
  · intro bo wo vars req resp
    exact validateGate 3 resp (decodeRegisters bo wo vars resp.registers req)
      (decodeRegisters_no_modbusResponse bo wo vars resp.registers req)
  · intro bo wo vars req resp
    exact validateGate 4 resp (decodeRegisters bo wo vars resp.registers req)
      (decodeRegisters_no_modbusResponse bo wo vars resp.registers req)
  · intro vars req resp
    exact validateGate 1 resp (decodeCoils vars resp.bits req)
      (decodeCoils_no_modbusResponse vars resp.bits req)
  · intro vars req resp
    exact validateGate 2 resp (decodeCoils vars resp.bits req)
      (decodeCoils_no_modbusResponse vars resp.bits req)
  · intro bo wo vars values respond payloads hpl
    constructor
    · intro hall
      unfold protocolWriteHoldingRegisters
      simp only [hpl]
      exact checkWriteResponses_ok 16 respond payloads.length 0
        (fun j hj => by simpa using hall j hj)
    · intro m hm hbad hok
      unfold protocolWriteHoldingRegisters
      simp only [hpl]
      have hres := checkWriteResponses_bad 16 respond payloads.length 0 m hm
        (by simpa using hbad) (fun j hj => by simpa using hok j hj)
      simpa using hres
  · intro vars values respond payloads hpl
    constructor
    · intro hall
      unfold protocolWriteCoils
      simp only [hpl]
      exact checkWriteResponses_ok 15 respond payloads.length 0
        (fun j hj => by simpa using hall j hj)
    · intro m hm hbad hok
      unfold protocolWriteCoils
      simp only [hpl]
      have hres := checkWriteResponses_bad 15 respond payloads.length 0 m hm
        (by simpa using hbad) (fun j hj => by simpa using hok j hj)
      simpa using hres
  · intro bo wo vars req resp
    exact validateGate 3 resp (decodeRegisters bo wo vars resp.registers req)
      (decodeRegisters_no_modbusResponse bo wo vars resp.registers req)
  · intro bo wo vars req resp
    exact validateGate 4 resp (decodeRegisters bo wo vars resp.registers req)
      (decodeRegisters_no_modbusResponse bo wo vars resp.registers req)
  · intro vars req resp
    exact validateGate 1 resp (decodeCoils vars resp.bits req)
      (decodeCoils_no_modbusResponse vars resp.bits req)
  · intro vars req resp
    exact validateGate 2 resp (decodeCoils vars resp.bits req)
      (decodeCoils_no_modbusResponse vars resp.bits req)
  · intro bo wo vars values respond payloads hpl
    constructor
    · intro hall
      unfold clientWriteHoldingRegisters
      simp only [hpl]
      exact checkWriteResponses_ok 16 respond payloads.length 0
        (fun j hj => by simpa using hall j hj)
    · intro m hm hbad hok
      unfold clientWriteHoldingRegisters
      simp only [hpl]
      have hres := checkWriteResponses_bad 16 respond payloads.length 0 m hm
        (by simpa using hbad) (fun j hj => by simpa using hok j hj)
      simpa using hres
  · intro vars values respond payloads hpl
    constructor
    · intro hall
      unfold clientWriteCoils
      simp only [hpl]
      exact checkWriteResponses_ok 15 respond payloads.length 0
        (fun j hj => by simpa using hall j hj)
    · intro m hm hbad hok
      unfold clientWriteCoils
      simp only [hpl]
      have hres := checkWriteResponses_bad 15 respond payloads.length 0 m hm
        (by simpa using hbad) (fun j hj => by simpa using hok j hj)
      simpa using hres

/-- Witness for C7: a one-variable holding layout; a response with code 3
decodes, a response with code 131 (an exception response) raises
ModbusResponseError, and a coil write whose single chunk response carries
code 15 succeeds. -/
theorem C7_response_validation_witness :
    protocolReadHoldingRegisters .big .big [⟨"a", .num .u16, 0⟩] none
        ⟨3, [7], []⟩ =
      decodeRegisters .big .big [⟨"a", .num .u16, 0⟩] [7] none ∧
    clientReadCoils [⟨"x", 1, 0⟩] none ⟨131, [], [true]⟩ =
      .error (.modbusResponse ⟨131, [], [true]⟩) ∧
    protocolWriteCoils [⟨"x", 1, 0⟩] [("x", [true])]
        (fun _ => ⟨15, [], []⟩) = .ok () := by
  refine ⟨?_, ?_, ?_⟩
  · exact (C7_response_validation.1 .big .big [⟨"a", .num .u16, 0⟩] none
      ⟨3, [7], []⟩).1 rfl
  · exact ((C7_response_validation.2.2.2.2.2.2.2.2.1 [⟨"x", 1, 0⟩] none
      ⟨131, [], [true]⟩).2 ⟨131, [], [true]⟩).mpr ⟨by decide, rfl⟩
  · exact (C7_response_validation.2.2.2.2.2.1 [⟨"x", 1, 0⟩] [("x", [true])]
      (fun _ => ⟨15, [], []⟩) [⟨0, [true]⟩] (by rfl)).1
      (fun i _ => rfl)

end PrettyModbus
